import Mathlib

set_option maxHeartbeats 1000000

/-!
Verification development for the `drc-2024` planner crate.

The two source files `src/planner/src/points.rs` and `src/planner/src/planner.rs`
are shallowly embedded below.  Rust `f64` values are modelled as real numbers,
`u32` identifiers and step counters as `ℕ` (no arithmetic is ever performed on
them, so wrap-around cannot occur), `Vec<T>` as `List T`, and the
reference-counted parent links of search nodes as a plain inductive chain.
`BinaryHeap` (used with an `Ord` that reverses the comparison on `distance`,
i.e. a min-heap on accumulated cost) is modelled as a list from which `popMin`
extracts an element of least `distance`; none of the theorems below depend on
the tie-breaking order, matching the specification's statement that ties are
broken arbitrarily.  The visualization calls (`draw_map_debug`, `println!`,
`puffin` profiling) are pure observers and are elided.
-/

namespace DRC

/-! ### `src/planner/src/points.rs` -/

/-- `Pos`: 2-D position with `f64` coordinates, modelled over `ℝ`. -/
structure Pos where
  x : ℝ
  y : ℝ

/-- `Pos::dist`: Euclidean distance, `(dx*dx + dy*dy).sqrt()`. -/
noncomputable def Pos.dist (self other : Pos) : ℝ :=
  Real.sqrt ((self.x - other.x) * (self.x - other.x) +
             (self.y - other.y) * (self.y - other.y))

/-- `PointType`: the closed set of landmark type tags. -/
inductive PointType where
  | LeftLine
  | RightLine
  | Obstacle
  | ArrowLeft
  | ArrowRight

/-- `Point`: one perceived landmark. -/
structure Point where
  pos : Pos
  expire_at : ℝ
  point_type : PointType
  id : ℕ

/-- `SimplePointMap`: the landmark store - a flat collection plus the
removed-ids buffer. -/
structure SimplePointMap where
  all_points : List Point
  removed_ids : List ℕ

/-- `SimplePointMap::new`. -/
def SimplePointMap.new : SimplePointMap :=
  { all_points := [], removed_ids := [] }

/-- `SimplePointMap::get_points_in_area`: filters `all_points` by
`point.pos.dist(around) < max_dist`. -/
noncomputable def SimplePointMap.get_points_in_area
    (self : SimplePointMap) (around : Pos) (max_dist : ℝ) : List Point :=
  self.all_points.filter (fun point => decide (point.pos.dist around < max_dist))

/-- `SimplePointMap::add_points`: `self.all_points.append(points)`.
`Vec::append` moves every element out of the argument vector, leaving it
empty, so the returned pair is (updated store, drained input vector). -/
def SimplePointMap.add_points
    (self : SimplePointMap) (points : List Point) : SimplePointMap × List Point :=
  ({ self with all_points := self.all_points ++ points }, [])

/-- One left-to-right pass of `Vec::retain` as used by `SimplePointMap::remove`:
returns (elements for which `predicate` is `true`, in order;
identifiers of the dropped elements, in traversal order). -/
def removeAux (predicate : Point → Bool) : List Point → List Point × List ℕ
  | [] => ([], [])
  | item :: rest =>
    let r := removeAux predicate rest
    if predicate item then (item :: r.1, r.2) else (r.1, item.id :: r.2)

/-- `SimplePointMap::remove`: `self.all_points.retain(|item| if predicate(item)
{ true } else { self.removed_ids.push(item.id); false })` - elements
satisfying the predicate are retained, the others are dropped and their ids
pushed onto `removed_ids` in traversal order. -/
def SimplePointMap.remove
    (self : SimplePointMap) (predicate : Point → Bool) : SimplePointMap :=
  { all_points := (removeAux predicate self.all_points).1,
    removed_ids := self.removed_ids ++ (removeAux predicate self.all_points).2 }

/-- `SimplePointMap::get_last_removed_ids`: `self.removed_ids.drain(..).collect()` -
returns the buffer contents and leaves the buffer empty. -/
def SimplePointMap.get_last_removed_ids
    (self : SimplePointMap) : List ℕ × SimplePointMap :=
  (self.removed_ids, { self with removed_ids := [] })

/-! ### `src/planner/src/planner.rs` -/

/-- `DriveState`: position, heading angle, curvature (signed inverse turn
radius) and speed. -/
structure DriveState where
  pos : Pos
  angle : ℝ
  curvature : ℝ
  speed : ℝ

/-- `DriveState::step_distance`: straight-line update when `|curvature| < 1e-3`;
otherwise the (buggy) "arc" branch of the source, which sets `x` to the
literal `1.0` and `y` to `dist.sin() * radius` with `radius = 1.0/curvature`,
and advances the heading by `curvature * dist`. -/
noncomputable def DriveState.step_distance (self : DriveState) (dist : ℝ) : DriveState :=
  if |self.curvature| < 1e-3 then
    { pos := { x := self.pos.x + dist * Real.cos self.angle,
               y := self.pos.y + dist * Real.sin self.angle },
      angle := self.angle,
      curvature := self.curvature,
      speed := self.speed }
  else
    { pos := { x := 1.0,
               y := Real.sin dist * (1.0 / self.curvature) },
      angle := self.angle + self.curvature * dist,
      curvature := self.curvature,
      speed := self.speed }

/-- `DriveState::step`: `step_distance(time * speed)`. -/
noncomputable def DriveState.step (self : DriveState) (time : ℝ) : DriveState :=
  self.step_distance (time * self.speed)

/-- `distance_calculators::calculate_avoid_edge_weight_for_point`. -/
noncomputable def calculate_avoid_edge_weight_for_point
    (state : DriveState) (point : Point) : ℝ :=
  let max_weight : ℝ := 5.0
  let start_dist : ℝ := 0.4
  let edge_dist := state.pos.dist point.pos
  let weighting := (start_dist - edge_dist) / start_dist * max_weight
  if weighting ≥ 0.0 then weighting else 0.0

/-- `distance_calculators::calculate_travel_direction_weight_for_point`:
a stub, always `0.0`. -/
noncomputable def calculate_travel_direction_weight_for_point
    (_state : DriveState) (_point : Point) : ℝ :=
  0.0

/-- `distance_calculators::calculate_curvature_weight`:
`curvature.abs().powf(2.0) * 0.1`. -/
noncomputable def calculate_curvature_weight (state : DriveState) : ℝ :=
  |state.curvature| ^ (2.0 : ℝ) * 0.1

/-- `distance`: the local cost of a state given the nearby landmarks -
starts from `-0.1`, adds the avoid-edge and travel-direction weights per
landmark, then the curvature weight once. -/
noncomputable def distance (state : DriveState) (nearby_points : List Point) : ℝ :=
  (nearby_points.foldl
    (fun total_weight point =>
      total_weight + calculate_avoid_edge_weight_for_point state point
        + calculate_travel_direction_weight_for_point state point)
    (-0.1))
  + calculate_curvature_weight state

/-- `MAX_CURVATURE: f64 = 1.0 / 0.3`. -/
noncomputable def MAX_CURVATURE : ℝ := 1.0 / 0.3

/-- The Rust iterator `lo..hi` over `i32`, as the list `[lo, lo+1, ..., hi-1]`. -/
def intRange (lo hi : ℤ) : List ℤ :=
  (List.range (hi - lo).toNat).map (fun (i : ℕ) => lo + (i : ℤ))

/-- `get_possible_next_states`: for `new_turn_index` in `-3..4`, replace the
state's curvature with `MAX_CURVATURE * (new_turn_index / 3)` and advance the
resulting state by `step(0.1)`. -/
noncomputable def get_possible_next_states (state : DriveState) : List DriveState :=
  (intRange (-3) (3 + 1)).map (fun (new_turn_index : ℤ) =>
    let new_curvature := MAX_CURVATURE * ((new_turn_index : ℝ) / (3 : ℝ))
    ({ state with curvature := new_curvature }).step 0.1)

/-- `Path`: the planner output, an ordered list of positions. -/
structure Path where
  points : List Pos

/-- `PathNode`: the parent chain of a search node (`Rc<PathNode>` in the
source); `Node` carries the fields of `PathNodeData`. -/
inductive PathNode where
  | End : PathNode
  | Node (state : DriveState) (distance : ℝ) (prev : PathNode) (steps : ℕ) : PathNode

/-- `PathNodeData`: one frontier entry - a state, its accumulated cost,
a shared link to its parent and its step count. -/
structure PathNodeData where
  state : DriveState
  distance : ℝ
  prev : PathNode
  steps : ℕ

/-- `Rc::new(PathNode::Node(current.clone()))`. -/
def PathNodeData.toNode (d : PathNodeData) : PathNode :=
  PathNode.Node d.state d.distance d.prev d.steps

/-- The list of positions collected by walking a parent chain down to the
root (the order in which `reconstruct_path` pushes them, i.e. terminal
first). -/
def PathNode.positions : PathNode → List Pos
  | .End => []
  | .Node state _ prev _ => state.pos :: prev.positions

/-- `reconstruct_path`: push the terminal node's position, walk the parent
chain pushing each ancestor's position, then reverse. -/
def reconstruct_path (final_node : PathNodeData) : Path :=
  { points := (final_node.state.pos :: final_node.prev.positions).reverse }

/-- `PLAN_STEP_SIZE_SECONDS: f64 = 0.1`. -/
noncomputable def PLAN_STEP_SIZE_SECONDS : ℝ := 0.1

/-- `PLAN_LENGTH_SECONDS: f64 = 3.0`. -/
noncomputable def PLAN_LENGTH_SECONDS : ℝ := 3.0

/-- `PLAN_STEPS: u32 = (PLAN_LENGTH_SECONDS / PLAN_STEP_SIZE_SECONDS) as u32`.
The `f64` quotient `3.0 / 0.1` is exactly `30.0` (the rounding error of the
literal `0.1` leaves the quotient within half an ulp of 30), so the cast
yields `30`. -/
def PLAN_STEPS : ℕ := 30

/-- The real-valued quotient agrees with the extracted constant. -/
theorem PLAN_STEPS_eq_quotient :
    (PLAN_STEPS : ℝ) = PLAN_LENGTH_SECONDS / PLAN_STEP_SIZE_SECONDS := by
  norm_num [PLAN_STEPS, PLAN_LENGTH_SECONDS, PLAN_STEP_SIZE_SECONDS]

/-- `BinaryHeap::pop` under the reversed `Ord` on `distance`: extracts an
element of least accumulated cost (the first such element; no theorem below
depends on this tie-break) together with the remaining elements. -/
noncomputable def popMin : List PathNodeData → Option (PathNodeData × List PathNodeData)
  | [] => none
  | x :: xs =>
    match popMin xs with
    | none => some (x, [])
    | some (m, rest) =>
      if x.distance ≤ m.distance then some (x, xs) else some (m, x :: rest)

/-- The `while let Some(current) = open_set.pop()` loop of `Planner::find_path`,
with an explicit fuel so that non-termination would be observable as `none`.
Each iteration pops a least-cost node; a node beyond the step horizon is
terminal and is handed to `reconstruct_path`; otherwise the node is expanded:
its successors are scored against a single landmark query at the current
node's position with radius `0.5` and pushed onto the frontier.  An empty
frontier yields the empty path. -/
noncomputable def findPathLoop (points : SimplePointMap) :
    ℕ → List PathNodeData → Option Path
  | 0, _ => none
  | fuel + 1, open_set =>
    match popMin open_set with
    | none => some { points := [] }
    | some (current, rest) =>
      if current.steps > PLAN_STEPS then some (reconstruct_path current)
      else
        let current_rc := current.toNode
        let relevant_points := points.get_points_in_area current.state.pos 0.5
        let next_nodes := (get_possible_next_states current.state).map
          (fun state =>
            { state := state,
              distance := current.distance + distance state relevant_points,
              prev := current_rc,
              steps := current.steps + 1 })
        findPathLoop points fuel (rest ++ next_nodes)

/-- Fuel sufficient for any run started from a single root node (proved
below: the loop strictly decreases `heapMeasure`, which starts at
`8 ^ (PLAN_STEPS + 1)`). -/
def SEARCH_FUEL : ℕ := 8 ^ (PLAN_STEPS + 1) + 1

/-- `Planner::find_path`: seed the frontier with the start state (cost 0,
no parent, step count 0) and run the expansion loop. -/
noncomputable def find_path (points : SimplePointMap) (start_state : DriveState) :
    Option Path :=
  findPathLoop points SEARCH_FUEL
    [{ state := start_state, distance := 0, prev := PathNode.End, steps := 0 }]

/-- Termination measure of one frontier entry. -/
def nodeMeasure (d : PathNodeData) : ℕ := 8 ^ (PLAN_STEPS + 1 - d.steps)

/-- Termination measure of the whole frontier. -/
def heapMeasure (l : List PathNodeData) : ℕ := (l.map nodeMeasure).sum

/-- Invariant of frontier entries reachable from a root at `startPos`:
bounded step count, parent chain of length `steps + 1`, rooted at the start
position. -/
def nodeInv (startPos : Pos) (d : PathNodeData) : Prop :=
  d.steps ≤ PLAN_STEPS + 1 ∧
  (d.state.pos :: d.prev.positions).length = d.steps + 1 ∧
  (d.state.pos :: d.prev.positions).getLast? = some startPos

/-! ### Landmark store operation traces (for the store invariant) -/

/-- One call through the `PointMap` interface. -/
inductive StoreOp where
  | add (ps : List Point)
  | removeWhere (predicate : Point → Bool)
  | drain
  | query (center : Pos) (radius : ℝ)

/-- Whether the operation is the draining call `get_last_removed_ids`. -/
def StoreOp.isDrain : StoreOp → Bool
  | .drain => true
  | _ => false

/-- The state transition of one interface call (`get_points_in_area` takes
`&self` and leaves the store unchanged). -/
def applyOp (s : SimplePointMap) : StoreOp → SimplePointMap
  | .add ps => (s.add_points ps).1
  | .removeWhere predicate => s.remove predicate
  | .drain => (s.get_last_removed_ids).2
  | .query _ _ => s

/-- Run a sequence of interface calls. -/
def run (s : SimplePointMap) (ops : List StoreOp) : SimplePointMap :=
  ops.foldl applyOp s

/-- All landmarks inserted over a call sequence, in insertion order. -/
def allAdded : List StoreOp → List Point
  | [] => []
  | .add ps :: ops => ps ++ allAdded ops
  | _ :: ops => allAdded ops

/-! ### Concrete data used by witnesses and counterexamples -/

/-- A single landmark with identifier 7 at the origin. -/
def pt7 : Point :=
  { pos := { x := 0, y := 0 }, expire_at := 0, point_type := PointType.Obstacle, id := 7 }

/-- Landmark at distance 0.1 from the origin. -/
noncomputable def P01 : Point :=
  { pos := { x := 0.1, y := 0 }, expire_at := 0, point_type := PointType.LeftLine, id := 1 }

/-- Landmark at distance 0.3 from the origin. -/
noncomputable def P03 : Point :=
  { pos := { x := 0.3, y := 0 }, expire_at := 0, point_type := PointType.RightLine, id := 2 }

/-- Landmark at distance 0.5 from the origin. -/
noncomputable def P05 : Point :=
  { pos := { x := 0.5, y := 0 }, expire_at := 0, point_type := PointType.Obstacle, id := 3 }

/-- Landmark at distance 1.0 from the origin. -/
noncomputable def P10 : Point :=
  { pos := { x := 1, y := 0 }, expire_at := 0, point_type := PointType.Obstacle, id := 4 }

/-- A concrete root frontier entry (start state at the origin). -/
def rootW : PathNodeData :=
  { state := { pos := { x := 0, y := 0 }, angle := 0, curvature := 0, speed := 0 },
    distance := 0, prev := PathNode.End, steps := 0 }

/-! ### Kinematic model claims -/

/-- Claim C4: for every drive state with `|curvature| < 1e-3` and every
distance `d`, `step_distance` returns a state whose position equals the old
position plus `d * (cos heading, sin heading)`, with heading, curvature and
speed unchanged. -/
theorem c4_straight_line_step (s : DriveState) (d : ℝ) (h : |s.curvature| < 1e-3) :
    s.step_distance d =
      { pos := { x := s.pos.x + d * Real.cos s.angle,
                 y := s.pos.y + d * Real.sin s.angle },
        angle := s.angle, curvature := s.curvature, speed := s.speed } := by
  rw [DriveState.step_distance, if_pos h]

/-- Witness for C4 at the state `((0,0), θ = 0, c = 0, v = 0)` and `d = 1`. -/
theorem c4_straight_line_step_witness :
    |({ pos := { x := 0, y := 0 }, angle := 0, curvature := 0, speed := 0 } :
        DriveState).curvature| < 1e-3 ∧
    ({ pos := { x := 0, y := 0 }, angle := 0, curvature := 0, speed := 0 } :
        DriveState).step_distance 1 =
      { pos := { x := (({ pos := { x := 0, y := 0 }, angle := 0, curvature := 0,
                          speed := 0 } : DriveState)).pos.x + 1 * Real.cos 0,
                 y := (({ pos := { x := 0, y := 0 }, angle := 0, curvature := 0,
                          speed := 0 } : DriveState)).pos.y + 1 * Real.sin 0 },
        angle := 0, curvature := 0, speed := 0 } :=
  ⟨by norm_num, c4_straight_line_step _ 1 (by norm_num)⟩

/-- Claim C2 (refuted, code bug): in the arc branch (`|curvature| ≥ 1e-3`) the
code hard-codes the new `x` to the literal `1.0` and sets `y` to
`sin(dist) * radius`, ignoring the state's current position and heading.
At the state `((5,5), θ = 0, c = 1, v = 0)` with travel distance `0` the
position comes out as `(1, 0)` instead of remaining at `(5, 5)` as arc travel
of length zero from the current position would require. -/
theorem c2_arc_branch_ignores_position :
    (({ pos := { x := 5, y := 5 }, angle := 0, curvature := 1, speed := 0 } :
        DriveState).step_distance 0).pos = ({ x := 1, y := 0 } : Pos) ∧
    (({ pos := { x := 5, y := 5 }, angle := 0, curvature := 1, speed := 0 } :
        DriveState).step_distance 0).pos ≠ ({ x := 5, y := 5 } : Pos) := by
  have h : ¬ |(({ pos := { x := 5, y := 5 }, angle := 0, curvature := 1, speed := 0 } :
      DriveState)).curvature| < 1e-3 := by norm_num
  rw [DriveState.step_distance, if_neg h]
  norm_num [Pos.mk.injEq]

/-! ### Cost model claims -/

/-- The avoid-edge weight equals the clamped linear ramp. -/
theorem avoid_weight_eq_max (s : DriveState) (p : Point) :
    calculate_avoid_edge_weight_for_point s p
      = max 0 ((0.4 - s.pos.dist p.pos) / 0.4 * 5.0) := by
  unfold calculate_avoid_edge_weight_for_point
  dsimp only
  simp only [ge_iff_le, show (0.0 : ℝ) = 0 from by norm_num]
  rcases le_or_lt 0 ((0.4 - s.pos.dist p.pos) / 0.4 * 5.0) with h | h
  · rw [if_pos h, max_eq_right h]
  · rw [if_neg (not_le.mpr h), max_eq_left h.le]

/-- Claim C7: the proximity penalty equals
`max 0 ((start_dist - d) / start_dist * max_weight)` with
`start_dist = 0.4`, `max_weight = 5.0`; it is nonnegative, vanishes for
`d ≥ start_dist`, and is monotone non-increasing in the distance. -/
theorem c7_proximity_penalty (s : DriveState) (p q : Point) :
    calculate_avoid_edge_weight_for_point s p
        = max 0 ((0.4 - s.pos.dist p.pos) / 0.4 * 5.0) ∧
    0 ≤ calculate_avoid_edge_weight_for_point s p ∧
    (0.4 ≤ s.pos.dist p.pos → calculate_avoid_edge_weight_for_point s p = 0) ∧
    (s.pos.dist p.pos ≤ s.pos.dist q.pos →
      calculate_avoid_edge_weight_for_point s q ≤ calculate_avoid_edge_weight_for_point s p) := by
  refine ⟨avoid_weight_eq_max s p, ?_, ?_, ?_⟩
  · rw [avoid_weight_eq_max]; exact le_max_left _ _
  · intro hfar
    rw [avoid_weight_eq_max]
    refine max_eq_left ?_
    rw [show (0.4 - s.pos.dist p.pos) / 0.4 * 5.0
          = (0.4 - s.pos.dist p.pos) * 12.5 from by ring]
    have hnp : 0.4 - s.pos.dist p.pos ≤ 0 := by linarith
    calc (0.4 - s.pos.dist p.pos) * 12.5 ≤ 0 * 12.5 :=
          mul_le_mul_of_nonneg_right hnp (by norm_num)
      _ = 0 := by ring
  · intro hle
    rw [avoid_weight_eq_max, avoid_weight_eq_max]
    refine max_le_max le_rfl ?_
    rw [show (0.4 - s.pos.dist q.pos) / 0.4 * 5.0
          = (0.4 - s.pos.dist q.pos) * 12.5 from by ring,
        show (0.4 - s.pos.dist p.pos) / 0.4 * 5.0
          = (0.4 - s.pos.dist p.pos) * 12.5 from by ring]
    exact mul_le_mul_of_nonneg_right (by linarith) (by norm_num)

/-- Witness for C7: the single state at the origin with landmarks at
distances 0.1, 0.3 and 1.0. -/
theorem c7_proximity_penalty_witness :
    (rootW.state.pos.dist P01.pos ≤ rootW.state.pos.dist P03.pos ∧
     calculate_avoid_edge_weight_for_point rootW.state P03
      ≤ calculate_avoid_edge_weight_for_point rootW.state P01) ∧
    (0.4 ≤ rootW.state.pos.dist P10.pos ∧
     calculate_avoid_edge_weight_for_point rootW.state P10 = 0) := by
  have hd : rootW.state.pos.dist P01.pos ≤ rootW.state.pos.dist P03.pos := by
    simp only [rootW, Pos.dist, P01, P03]
    exact Real.sqrt_le_sqrt (by norm_num)
  have h4 : (0.4 : ℝ) ≤ rootW.state.pos.dist P10.pos := by
    have h1 : rootW.state.pos.dist P10.pos = 1 := by
      simp only [rootW, Pos.dist, P10]
      norm_num [Real.sqrt_eq_one]
    rw [h1]; norm_num
  exact ⟨⟨hd, (c7_proximity_penalty _ P01 P03).2.2.2 hd⟩,
         ⟨h4, (c7_proximity_penalty _ P10 P10).2.2.1 h4⟩⟩

/-! ### Landmark store claims -/

/-- Claim C10: `add_points` appends the input landmarks, in order, to the
collection, leaves the removed-ids buffer alone, and drains the caller's
vector (`Vec::append` moves all elements out, leaving it empty). -/
theorem c10_add_points_moves_all (m : SimplePointMap) (ps : List Point) :
    (m.add_points ps).1.all_points = m.all_points ++ ps ∧
    (m.add_points ps).1.removed_ids = m.removed_ids ∧
    (m.add_points ps).2 = [] ∧
    ∀ q : Point, q ∈ (m.add_points ps).1.all_points ↔ q ∈ m.all_points ∨ q ∈ ps := by
  refine ⟨rfl, rfl, rfl, fun q => ?_⟩
  simp [SimplePointMap.add_points]

/-- Claim C5: `get_points_in_area` returns exactly the landmarks whose
Euclidean distance to the center is strictly less than `max_dist` (store
iteration order preserved); in particular for landmarks at distances
0.1, 0.3, 0.5 and 1.0 from the origin and `max_dist = 0.5` it returns
exactly the two at distances 0.1 and 0.3 - the landmark at exactly 0.5 is
excluded. -/
theorem c5_radius_query :
    (∀ (m : SimplePointMap) (around : Pos) (max_dist : ℝ) (p : Point),
        p ∈ m.get_points_in_area around max_dist
          ↔ p ∈ m.all_points ∧ p.pos.dist around < max_dist) ∧
    (SimplePointMap.mk [P01, P03, P05, P10] []).get_points_in_area { x := 0, y := 0 } 0.5
      = [P01, P03] := by
  constructor
  · intro m around max_dist p
    simp [SimplePointMap.get_points_in_area, List.mem_filter]
  · have e1 : P01.pos.dist { x := 0, y := 0 } < 0.5 := by
      simp only [P01, Pos.dist]
      rw [show ((0.1 - 0) * (0.1 - 0) + (0 - 0) * (0 - 0) : ℝ) = 0.01 from by norm_num]
      exact (Real.sqrt_lt' (by norm_num)).mpr (by norm_num)
    have e2 : P03.pos.dist { x := 0, y := 0 } < 0.5 := by
      simp only [P03, Pos.dist]
      rw [show ((0.3 - 0) * (0.3 - 0) + (0 - 0) * (0 - 0) : ℝ) = 0.09 from by norm_num]
      exact (Real.sqrt_lt' (by norm_num)).mpr (by norm_num)
    have e3 : ¬ P05.pos.dist { x := 0, y := 0 } < 0.5 := by
      simp only [P05, Pos.dist]
      rw [show ((0.5 - 0) * (0.5 - 0) + (0 - 0) * (0 - 0) : ℝ) = 0.25 from by norm_num]
      intro hcon
      have h2 := (Real.sqrt_lt' (by norm_num : (0 : ℝ) < 0.5)).mp hcon
      norm_num at h2
    have e4 : ¬ P10.pos.dist { x := 0, y := 0 } < 0.5 := by
      simp only [P10, Pos.dist]
      rw [show ((1 - 0) * (1 - 0) + (0 - 0) * (0 - 0) : ℝ) = 1 from by norm_num]
      intro hcon
      have h2 := (Real.sqrt_lt' (by norm_num : (0 : ℝ) < 0.5)).mp hcon
      norm_num at h2
    simp [SimplePointMap.get_points_in_area, List.filter_cons, e1, e2, e3, e4]

/-- One `retain` pass keeps exactly the elements satisfying the predicate and
reports the ids of the dropped elements in traversal order. -/
theorem removeAux_spec (predicate : Point → Bool) (l : List Point) :
    removeAux predicate l
      = (l.filter predicate, (l.filter (fun p => !(predicate p))).map Point.id) := by
  induction l with
  | nil => rfl
  | cons x xs ih =>
    cases hx : predicate x <;>
      simp [removeAux, hx, ih, List.filter_cons]

/-- Claim C1 (refuted): `remove` does not remove the landmarks satisfying the
predicate.  On a store holding the single landmark `pt7`, removing with the
always-true predicate leaves the store completely unchanged (and buffers no
identifier), whereas the claim requires the store to become empty. -/
theorem c1_remove_counterexample :
    (SimplePointMap.mk [pt7] []).remove (fun _ => true) = SimplePointMap.mk [pt7] [] ∧
    [pt7] ≠ ([] : List Point) := by
  constructor
  · simp [SimplePointMap.remove, removeAux_spec]
  · simp

/-- Claim C1 as amended: `remove(p)` retains exactly the landmarks satisfying
`p` and removes the landmarks not satisfying it, appending each removed
landmark's identifier to the buffer in traversal order.  Consequently, after
inserting `N` landmarks, `remove(|_| true)` leaves the store (hence every
`query_radius` result) unchanged, `remove(|_| false)` empties the store,
`drain_removed_ids()` then returns the `N` inserted identifiers in order, and
a second drain returns the empty sequence. -/
theorem c1_remove_amended :
    (∀ (m : SimplePointMap) (predicate : Point → Bool),
        (m.remove predicate).all_points = m.all_points.filter predicate ∧
        (m.remove predicate).removed_ids
          = m.removed_ids ++ (m.all_points.filter (fun p => !(predicate p))).map Point.id) ∧
    (∀ ps : List Point,
        ((SimplePointMap.new.add_points ps).1.remove (fun _ => true))
            = (SimplePointMap.new.add_points ps).1 ∧
        ((SimplePointMap.new.add_points ps).1.remove (fun _ => false)).all_points = [] ∧
        (((SimplePointMap.new.add_points ps).1.remove (fun _ => false)).get_last_removed_ids).1
            = ps.map Point.id ∧
        ((((SimplePointMap.new.add_points ps).1.remove
            (fun _ => false)).get_last_removed_ids).2.get_last_removed_ids).1 = []) := by
  constructor
  · intro m predicate
    constructor <;> simp [SimplePointMap.remove, removeAux_spec]
  · intro ps
    refine ⟨?_, ?_, ?_, ?_⟩ <;>
      simp [SimplePointMap.new, SimplePointMap.add_points, SimplePointMap.remove,
            SimplePointMap.get_last_removed_ids, removeAux_spec]

/-! ### Search engine: frontier lemmas -/

/-- `popMin` fails exactly on the empty frontier. -/
theorem popMin_none {l : List PathNodeData} (h : popMin l = none) : l = [] := by
  cases l with
  | nil => rfl
  | cons x xs =>
    exfalso
    rw [popMin] at h
    cases hx : popMin xs with
    | none => rw [hx] at h; simp at h
    | some p =>
      obtain ⟨m, rest⟩ := p
      rw [hx] at h
      dsimp only at h
      by_cases hd : x.distance ≤ m.distance
      · rw [if_pos hd] at h; simp at h
      · rw [if_neg hd] at h; simp at h

/-- Popping returns a permutation split of the frontier. -/
theorem popMin_perm (l : List PathNodeData) (m : PathNodeData) (rest : List PathNodeData)
    (h : popMin l = some (m, rest)) : l.Perm (m :: rest) := by
  induction l generalizing m rest with
  | nil => simp [popMin] at h
  | cons x xs ih =>
    rw [popMin] at h
    cases hx : popMin xs with
    | none =>
      rw [hx] at h
      have hxs : xs = [] := popMin_none hx
      simp only [Option.some.injEq, Prod.mk.injEq] at h
      obtain ⟨rfl, rfl⟩ := h
      subst hxs
      exact List.Perm.refl _
    | some p =>
      obtain ⟨m', rest'⟩ := p
      rw [hx] at h
      dsimp only at h
      by_cases hd : x.distance ≤ m'.distance
      · rw [if_pos hd] at h
        simp only [Option.some.injEq, Prod.mk.injEq] at h
        obtain ⟨rfl, rfl⟩ := h
        exact List.Perm.refl _
      · rw [if_neg hd] at h
        simp only [Option.some.injEq, Prod.mk.injEq] at h
        obtain ⟨h1, h2⟩ := h
        rw [← h1, ← h2]
        exact ((ih m' rest' hx).cons x).trans (List.Perm.swap m' x rest')

/-- The frontier measure is invariant under permutation. -/
theorem heapMeasure_perm {l₁ l₂ : List PathNodeData} (h : l₁.Perm l₂) :
    heapMeasure l₁ = heapMeasure l₂ :=
  (h.map nodeMeasure).sum_eq

/-- The frontier measure is additive over concatenation. -/
theorem heapMeasure_append (l₁ l₂ : List PathNodeData) :
    heapMeasure (l₁ ++ l₂) = heapMeasure l₁ + heapMeasure l₂ := by
  simp [heapMeasure]

/-- The branching factor: seven successors per expanded node. -/
theorem get_possible_next_states_length (s : DriveState) :
    (get_possible_next_states s).length = 7 := by
  rw [get_possible_next_states, List.length_map, intRange, List.length_map,
      List.length_range]
  decide

/-- Measure of a frontier segment all of whose entries share a step count. -/
theorem heapMeasure_map_steps (l : List DriveState) (mk : DriveState → PathNodeData)
    (n : ℕ) (hmk : ∀ st, (mk st).steps = n) :
    heapMeasure (l.map mk) = l.length * 8 ^ (PLAN_STEPS + 1 - n) := by
  rw [heapMeasure, List.map_map]
  have hconst : (nodeMeasure ∘ mk) = fun _ => 8 ^ (PLAN_STEPS + 1 - n) := by
    funext st; simp [nodeMeasure, Function.comp, hmk]
  rw [hconst, List.map_const', List.sum_replicate, smul_eq_mul]

/-- Main loop invariant: from a nonempty frontier whose entries satisfy
`nodeInv` and with fuel above the frontier measure, the expansion loop
completes and returns a path of `PLAN_STEPS + 2` positions starting at the
root position. -/
theorem findPathLoop_spec (points : SimplePointMap) (startPos : Pos) :
    ∀ (fuel : ℕ) (open_set : List PathNodeData),
      heapMeasure open_set < fuel → open_set ≠ [] →
      (∀ d ∈ open_set, nodeInv startPos d) →
      ∃ pts : List Pos, findPathLoop points fuel open_set = some { points := pts } ∧
        pts.length = PLAN_STEPS + 2 ∧ pts.head? = some startPos := by
  intro fuel
  induction fuel with
  | zero => intro open_set hm; omega
  | succ fuel ih =>
    intro open_set hm hne hinv
    cases hpop : popMin open_set with
    | none => exact absurd (popMin_none hpop) hne
    | some cr =>
      obtain ⟨current, rest⟩ := cr
      have hperm := popMin_perm _ _ _ hpop
      have hcur : nodeInv startPos current :=
        hinv current (hperm.mem_iff.mpr (List.mem_cons_self _ _))
      by_cases hterm : current.steps > PLAN_STEPS
      · refine ⟨(current.state.pos :: current.prev.positions).reverse, ?_, ?_, ?_⟩
        · simp [findPathLoop, hpop, hterm, reconstruct_path]
        · have hsteps : current.steps = PLAN_STEPS + 1 := le_antisymm hcur.1 hterm
          rw [List.length_reverse, hcur.2.1, hsteps]
        · rw [List.head?_reverse]
          exact hcur.2.2
      · have hng : ¬ current.steps > PLAN_STEPS := hterm
        have hle : current.steps ≤ PLAN_STEPS := by omega
        have hstep : findPathLoop points (fuel + 1) open_set
            = findPathLoop points fuel
                (rest ++ (get_possible_next_states current.state).map (fun state =>
                  { state := state,
                    distance := current.distance
                      + distance state (points.get_points_in_area current.state.pos 0.5),
                    prev := current.toNode,
                    steps := current.steps + 1 })) := by
          simp [findPathLoop, hpop, hng]
        rw [hstep]
        apply ih
        · have h1 : heapMeasure open_set = nodeMeasure current + heapMeasure rest := by
            rw [heapMeasure_perm hperm]; simp [heapMeasure]
          have h2 : heapMeasure ((get_possible_next_states current.state).map (fun state =>
              { state := state,
                distance := current.distance
                  + distance state (points.get_points_in_area current.state.pos 0.5),
                prev := current.toNode,
                steps := current.steps + 1 } : DriveState → PathNodeData))
              = 7 * 8 ^ (PLAN_STEPS - current.steps) := by
            have he : PLAN_STEPS + 1 - (current.steps + 1) = PLAN_STEPS - current.steps := by
              omega
            rw [heapMeasure_map_steps _ _ (current.steps + 1) (fun st => rfl),
                get_possible_next_states_length, he]
          have h3 : nodeMeasure current = 8 ^ (PLAN_STEPS - current.steps) * 8 := by
            rw [nodeMeasure, show PLAN_STEPS + 1 - current.steps
                  = (PLAN_STEPS - current.steps) + 1 from by omega, pow_succ]
          have h4 : 0 < 8 ^ (PLAN_STEPS - current.steps) := pow_pos (by norm_num) _
          rw [heapMeasure_append, h2]
          rw [h1, h3] at hm
          omega
        · intro happ
          rcases List.append_eq_nil.mp happ with ⟨-, hch⟩
          have := get_possible_next_states_length current.state
          rw [← List.length_map _ (fun state =>
              ({ state := state,
                 distance := current.distance
                   + distance state (points.get_points_in_area current.state.pos 0.5),
                 prev := current.toNode,
                 steps := current.steps + 1 } : PathNodeData)), hch] at this
          simp at this
        · intro d hd
          rcases List.mem_append.mp hd with hdr | hdc
          · exact hinv d (hperm.mem_iff.mpr (List.mem_cons_of_mem _ hdr))
          · rcases List.mem_map.mp hdc with ⟨st, -, rfl⟩
            refine ⟨by show current.steps + 1 ≤ PLAN_STEPS + 1; omega, ?_, ?_⟩
            · show (st.pos :: current.toNode.positions).length = (current.steps + 1) + 1
              simp only [PathNodeData.toNode, PathNode.positions, List.length_cons]
              have := hcur.2.1
              simp only [List.length_cons] at this ⊢
              omega
            · show (st.pos :: current.toNode.positions).getLast? = some startPos
              simp only [PathNodeData.toNode, PathNode.positions]
              rw [List.getLast?_cons_cons]
              exact hcur.2.2

/-- `find_path` always completes, returning a path of `PLAN_STEPS + 2`
positions whose first position is the start position - for every landmark
store and every start state. -/
theorem find_path_spec (points : SimplePointMap) (start_state : DriveState) :
    ∃ pts : List Pos, find_path points start_state = some { points := pts } ∧
      pts.length = PLAN_STEPS + 2 ∧ pts.head? = some start_state.pos := by
  rw [find_path]
  apply findPathLoop_spec
  · simp [heapMeasure, nodeMeasure, SEARCH_FUEL]
  · simp
  · intro d hd
    simp only [List.mem_singleton] at hd
    subst hd
    exact ⟨by show (0 : ℕ) ≤ PLAN_STEPS + 1; omega,
           by simp [PathNode.positions], by simp [PathNode.positions]⟩

/-- Claim C9: `find_path` terminates for every landmark store and every
start state: the expansion loop pops the frontier finitely many times (the
frontier measure strictly decreases on every expansion and `SEARCH_FUEL`
exceeds the initial measure) and the call runs to completion, returning a
path. -/
theorem c9_find_path_terminates (points : SimplePointMap) (start_state : DriveState) :
    ∃ p : Path, find_path points start_state = some p := by
  obtain ⟨pts, h1, -, -⟩ := find_path_spec points start_state
  exact ⟨{ points := pts }, h1⟩

/-- Claim C3 (refuted): with an empty landmark store the returned path does
not have 31 positions.  The loop only stops at the first popped node whose
step count strictly exceeds `PLAN_STEPS = 30`, i.e. a node with 31 steps, so
the path has 32 positions. -/
theorem c3_path_length_counterexample :
    ∃ p : Path, find_path SimplePointMap.new rootW.state = some p ∧
      p.points.length ≠ 31 := by
  obtain ⟨pts, h1, h2, -⟩ := find_path_spec SimplePointMap.new rootW.state
  refine ⟨{ points := pts }, h1, ?_⟩
  rw [h2]
  norm_num [PLAN_STEPS]

/-- Claim C3 as amended: for the empty landmark store and any start state,
`find_path` returns a path with exactly `H + 2 = 32` positions (the root plus
31 expansions, since termination requires a popped node's step count to
strictly exceed `H = 30`), and the first position equals the start state's
position. -/
theorem c3_path_length_amended (start_state : DriveState) :
    ∃ p : Path, find_path SimplePointMap.new start_state = some p ∧
      p.points.length = PLAN_STEPS + 2 ∧ p.points.head? = some start_state.pos := by
  obtain ⟨pts, h1, h2, h3⟩ := find_path_spec SimplePointMap.new start_state
  exact ⟨{ points := pts }, h1, h2, h3⟩

/-- Claim C6: expanding a node yields exactly `2*3 + 1 = 7` successors, one
per curvature sample `-MAX_CURVATURE + i * (MAX_CURVATURE / 3)` for
`i = 0, ..., 6` (evenly spaced over `[-MAX_CURVATURE, MAX_CURVATURE]`), each
obtained by replacing the node's curvature (keeping position, heading and
speed) and advancing by `step(0.1)`; and one iteration of the search loop on
a non-terminal node scores all seven successors against the single landmark
query at the *current* node's position with radius `0.5`. -/
theorem c6_expansion :
    (∀ s : DriveState,
      (get_possible_next_states s).length = 7 ∧
      get_possible_next_states s = (List.range 7).map (fun (i : ℕ) =>
        ({ s with curvature := -MAX_CURVATURE + (i : ℝ) * (MAX_CURVATURE / 3) }).step 0.1)) ∧
    (∀ (points : SimplePointMap) (fuel : ℕ) (open_set : List PathNodeData)
        (current : PathNodeData) (rest : List PathNodeData),
      popMin open_set = some (current, rest) → current.steps ≤ PLAN_STEPS →
      findPathLoop points (fuel + 1) open_set
        = findPathLoop points fuel
            (rest ++ (get_possible_next_states current.state).map (fun state =>
              { state := state,
                distance := current.distance
                  + distance state (points.get_points_in_area current.state.pos 0.5),
                prev := current.toNode,
                steps := current.steps + 1 }))) := by
  constructor
  · intro s
    refine ⟨get_possible_next_states_length s, ?_⟩
    rw [get_possible_next_states, intRange,
        show ((3 + 1 - (-3) : ℤ)).toNat = 7 from by decide, List.map_map]
    refine List.map_congr_left ?_
    intro i hi
    simp only [Function.comp]
    have hc : MAX_CURVATURE * (((-3 + (i : ℤ) : ℤ) : ℝ) / 3)
        = -MAX_CURVATURE + (i : ℝ) * (MAX_CURVATURE / 3) := by
      push_cast
      ring
    rw [hc]
  · intro points fuel open_set current rest hpop hle
    have hng : ¬ current.steps > PLAN_STEPS := by omega
    simp [findPathLoop, hpop, hng]

/-- Witness for C6: one expansion step from a singleton frontier holding the
root node. -/
theorem c6_expansion_witness :
    popMin [rootW] = some (rootW, []) ∧ rootW.steps ≤ PLAN_STEPS ∧
    findPathLoop SimplePointMap.new 1 [rootW]
      = findPathLoop SimplePointMap.new 0
          ([] ++ (get_possible_next_states rootW.state).map (fun state =>
            { state := state,
              distance := rootW.distance
                + distance state (SimplePointMap.new.get_points_in_area rootW.state.pos 0.5),
              prev := rootW.toNode,
              steps := rootW.steps + 1 })) :=
  ⟨rfl, Nat.zero_le _,
   c6_expansion.2 SimplePointMap.new 0 [rootW] rootW [] rfl (Nat.zero_le _)⟩

/-! ### Store invariant over operation traces -/

/-- Ids of the kept and dropped parts of one filter pass are disjoint when
the collection's ids are duplicate-free. -/
theorem ids_filter_disjoint (predicate : Point → Bool) (l : List Point)
    (h : (l.map Point.id).Nodup) :
    ((l.filter predicate).map Point.id).Disjoint
      ((l.filter (fun p => !(predicate p))).map Point.id) := by
  intro i h1 h2
  rcases List.mem_map.mp h1 with ⟨p, hp, hpi⟩
  rcases List.mem_map.mp h2 with ⟨q, hq, hqi⟩
  rcases List.mem_filter.mp hp with ⟨hpl, hppred⟩
  rcases List.mem_filter.mp hq with ⟨hql, hqpred⟩
  have hpq : p = q := List.inj_on_of_nodup_map h hpl hql (by rw [hpi, hqi])
  subst hpq
  rw [hppred] at hqpred
  simp at hqpred

/-- Trace invariant of the landmark store: starting from a state whose
collection ids, buffered ids and future insertion ids are jointly
duplicate-free, running any call sequence keeps the collection ids disjoint
from the buffered ids, and every buffered id stems from a landmark that was
in the collection at the start or was inserted along the way. -/
theorem run_invariant (ops : List StoreOp) :
    ∀ s : SimplePointMap,
      (s.all_points.map Point.id
        ++ (s.removed_ids ++ (allAdded ops).map Point.id)).Nodup →
      ((run s ops).all_points.map Point.id ++ (run s ops).removed_ids).Nodup ∧
      (∀ i ∈ (run s ops).removed_ids,
        i ∈ s.removed_ids ∨ ∃ p, (p ∈ s.all_points ∨ p ∈ allAdded ops) ∧ p.id = i) := by
  induction ops with
  | nil =>
    intro s h
    rw [show run s [] = s from rfl]
    refine ⟨?_, fun i hi => Or.inl hi⟩
    simpa [allAdded] using h
  | cons op ops ih =>
    intro s h
    rw [show run s (op :: ops) = run (applyOp s op) ops from rfl]
    cases op with
    | add ps =>
      have h' : ((applyOp s (StoreOp.add ps)).all_points.map Point.id
          ++ ((applyOp s (StoreOp.add ps)).removed_ids
            ++ (allAdded ops).map Point.id)).Nodup := by
        have hperm : (s.all_points.map Point.id
              ++ (s.removed_ids ++ (allAdded (StoreOp.add ps :: ops)).map Point.id)).Perm
            ((applyOp s (StoreOp.add ps)).all_points.map Point.id
              ++ ((applyOp s (StoreOp.add ps)).removed_ids
                ++ (allAdded ops).map Point.id)) := by
          show (s.all_points.map Point.id
              ++ (s.removed_ids ++ ((ps ++ allAdded ops).map Point.id))).Perm
            ((s.all_points ++ ps).map Point.id
              ++ (s.removed_ids ++ (allAdded ops).map Point.id))
          rw [List.perm_iff_count]
          intro a
          simp only [List.map_append, List.count_append]
          omega
        exact hperm.nodup_iff.mp h
      obtain ⟨hnd, horig⟩ := ih (applyOp s (StoreOp.add ps)) h'
      refine ⟨hnd, ?_⟩
      intro i hi
      rcases horig i hi with hiL | ⟨p, hp | hp, hpi⟩
      · exact Or.inl hiL
      · rcases List.mem_append.mp hp with h1 | h1
        · exact Or.inr ⟨p, Or.inl h1, hpi⟩
        · refine Or.inr ⟨p, Or.inr ?_, hpi⟩
          show p ∈ ps ++ allAdded ops
          exact List.mem_append.mpr (Or.inl h1)
      · refine Or.inr ⟨p, Or.inr ?_, hpi⟩
        show p ∈ ps ++ allAdded ops
        exact List.mem_append.mpr (Or.inr hp)
    | removeWhere predicate =>
      have hall : (s.remove predicate).all_points = s.all_points.filter predicate := by
        simp [SimplePointMap.remove, removeAux_spec]
      have hrem : (s.remove predicate).removed_ids
          = s.removed_ids ++ (s.all_points.filter (fun p => !(predicate p))).map Point.id := by
        simp [SimplePointMap.remove, removeAux_spec]
      have h' : ((applyOp s (StoreOp.removeWhere predicate)).all_points.map Point.id
          ++ ((applyOp s (StoreOp.removeWhere predicate)).removed_ids
            ++ (allAdded ops).map Point.id)).Nodup := by
        show ((s.remove predicate).all_points.map Point.id
          ++ ((s.remove predicate).removed_ids ++ (allAdded ops).map Point.id)).Nodup
        rw [hall, hrem]
        have hfil := (List.filter_append_perm predicate s.all_points).map Point.id
        have hperm : (s.all_points.map Point.id
              ++ (s.removed_ids ++ (allAdded (StoreOp.removeWhere predicate :: ops)).map Point.id)).Perm
            ((s.all_points.filter predicate).map Point.id
              ++ ((s.removed_ids
                    ++ (s.all_points.filter (fun p => !(predicate p))).map Point.id)
                  ++ (allAdded ops).map Point.id)) := by
          show (s.all_points.map Point.id
              ++ (s.removed_ids ++ (allAdded ops).map Point.id)).Perm _
          rw [List.perm_iff_count]
          intro a
          have hc := hfil.count_eq a
          rw [List.map_append] at hc
          simp only [List.count_append] at hc ⊢
          omega
        exact hperm.nodup_iff.mp h
      obtain ⟨hnd, horig⟩ := ih (applyOp s (StoreOp.removeWhere predicate)) h'
      refine ⟨hnd, ?_⟩
      intro i hi
      rcases horig i hi with hiL | ⟨p, hp | hp, hpi⟩
      · have hiL2 : i ∈ (s.remove predicate).removed_ids := hiL
        rw [hrem] at hiL2
        rcases List.mem_append.mp hiL2 with h1 | h1
        · exact Or.inl h1
        · rcases List.mem_map.mp h1 with ⟨p, hp, hpi⟩
          exact Or.inr ⟨p, Or.inl (List.mem_filter.mp hp).1, hpi⟩
      · have hp2 : p ∈ (s.remove predicate).all_points := hp
        rw [hall] at hp2
        exact Or.inr ⟨p, Or.inl (List.mem_filter.mp hp2).1, hpi⟩
      · exact Or.inr ⟨p, Or.inr hp, hpi⟩
    | drain =>
      have h' : ((applyOp s StoreOp.drain).all_points.map Point.id
          ++ ((applyOp s StoreOp.drain).removed_ids
            ++ (allAdded ops).map Point.id)).Nodup := by
        show (s.all_points.map Point.id ++ ([] ++ (allAdded ops).map Point.id)).Nodup
        have hsub : (s.all_points.map Point.id ++ ([] ++ (allAdded ops).map Point.id)).Sublist
            (s.all_points.map Point.id ++ (s.removed_ids ++ (allAdded ops).map Point.id)) := by
          refine List.Sublist.append_left ?_ _
          rw [List.nil_append]
          exact List.sublist_append_right s.removed_ids ((allAdded ops).map Point.id)
        exact List.Nodup.sublist hsub h
      obtain ⟨hnd, horig⟩ := ih (applyOp s StoreOp.drain) h'
      refine ⟨hnd, ?_⟩
      intro i hi
      rcases horig i hi with hiL | ⟨p, hp | hp, hpi⟩
      · exact absurd hiL (List.not_mem_nil i)
      · exact Or.inr ⟨p, Or.inl hp, hpi⟩
      · exact Or.inr ⟨p, Or.inr hp, hpi⟩
    | query center radius =>
      obtain ⟨hnd, horig⟩ := ih (applyOp s (StoreOp.query center radius)) (by exact h)
      refine ⟨hnd, ?_⟩
      intro i hi
      rcases horig i hi with hiL | ⟨p, hp | hp, hpi⟩
      · exact Or.inl hiL
      · exact Or.inr ⟨p, Or.inl hp, hpi⟩
      · exact Or.inr ⟨p, Or.inr hp, hpi⟩

/-- Claim C8: under the documented caller contract that landmark identifiers
are unique, every identifier in the removed-ids buffer of a store reached by
any call sequence from `new` belonged to an inserted landmark and is absent
from the current collection; every non-drain call only appends to the
buffer; and `get_last_removed_ids` returns the whole buffer and empties it
in one step, leaving the collection untouched. -/
theorem c8_store_invariant :
    (∀ ops : List StoreOp,
      ((allAdded ops).map Point.id).Nodup →
      ∀ i ∈ (run SimplePointMap.new ops).removed_ids,
        (∃ p ∈ allAdded ops, p.id = i) ∧
        i ∉ (run SimplePointMap.new ops).all_points.map Point.id) ∧
    (∀ (s : SimplePointMap) (op : StoreOp), op.isDrain = false →
      ∃ t, (applyOp s op).removed_ids = s.removed_ids ++ t) ∧
    (∀ s : SimplePointMap,
      (s.get_last_removed_ids).1 = s.removed_ids ∧
      (s.get_last_removed_ids).2.removed_ids = [] ∧
      (s.get_last_removed_ids).2.all_points = s.all_points) := by
  refine ⟨?_, ?_, ?_⟩
  · intro ops hnodup i hi
    obtain ⟨hnd, horig⟩ := run_invariant ops SimplePointMap.new
      (by simpa [SimplePointMap.new] using hnodup)
    constructor
    · rcases horig i hi with hiL | ⟨p, hp | hp, hpi⟩
      · simp [SimplePointMap.new] at hiL
      · simp [SimplePointMap.new] at hp
      · exact ⟨p, hp, hpi⟩
    · intro hmem
      rw [List.nodup_append] at hnd
      exact hnd.2.2 hmem hi
  · intro s op hop
    cases op with
    | add ps =>
      exact ⟨[], by simp [applyOp, SimplePointMap.add_points]⟩
    | removeWhere predicate =>
      exact ⟨(s.all_points.filter (fun p => !(predicate p))).map Point.id,
        by simp [applyOp, SimplePointMap.remove, removeAux_spec]⟩
    | drain => simp [StoreOp.isDrain] at hop
    | query center radius => exact ⟨[], by simp [applyOp]⟩
  · intro s
    exact ⟨rfl, rfl, rfl⟩

/-- Witness for C8: inserting the single landmark `pt7` and then removing it
with the always-false predicate (which, per the source's `retain` semantics,
drops every landmark). -/
theorem c8_store_invariant_witness :
    ((allAdded [StoreOp.add [pt7], StoreOp.removeWhere (fun _ => false)]).map Point.id).Nodup ∧
    (∀ i ∈ (run SimplePointMap.new
        [StoreOp.add [pt7], StoreOp.removeWhere (fun _ => false)]).removed_ids,
      (∃ p ∈ allAdded [StoreOp.add [pt7], StoreOp.removeWhere (fun _ => false)], p.id = i) ∧
      i ∉ (run SimplePointMap.new
        [StoreOp.add [pt7], StoreOp.removeWhere (fun _ => false)]).all_points.map Point.id) ∧
    ((StoreOp.add [pt7]).isDrain = false ∧
      ∃ t, (applyOp SimplePointMap.new (StoreOp.add [pt7])).removed_ids
        = SimplePointMap.new.removed_ids ++ t) := by
  refine ⟨?_, ?_, rfl, ?_⟩
  · simp [allAdded]
  · exact c8_store_invariant.1 _ (by simp [allAdded])
  · exact c8_store_invariant.2.1 SimplePointMap.new (StoreOp.add [pt7]) rfl

end DRC
